import Mathlib

/-!
Verification development for the TF-GAT dataset-construction layer
(source: gnn/data/dataset.py).

The Python source is shallowly embedded below.  Pure string processing
(str.split, re.split, the tokenizers) is translated directly; the stateful
Tokenizer and GraphDataset objects become explicit state passing; Python
exceptions (KeyError, IndexError, ValueError, UnboundLocalError,
NotImplementedError) become an explicit error type threaded through Except.
The external MetaNetwork container (gnn/data/meta_network.py, not part of
the provided sources) is modelled from the spec's collaborator interface.
-/

namespace TFGAT

instance {ε α : Type} [DecidableEq ε] [DecidableEq α] : DecidableEq (Except ε α) :=
  fun a b =>
    match a, b with
    | .ok x, .ok y =>
      match decEq x y with
      | isTrue h => isTrue (congrArg Except.ok h)
      | isFalse h => isFalse (fun hc => h (Except.ok.inj hc))
    | .error x, .error y =>
      match decEq x y with
      | isTrue h => isTrue (congrArg Except.error h)
      | isFalse h => isFalse (fun hc => h (Except.error.inj hc))
    | .ok _, .error _ => isFalse (fun hc => Except.noConfusion hc)
    | .error _, .ok _ => isFalse (fun hc => Except.noConfusion hc)

/-- Python exception kinds that the embedded code can raise.
keyError covers Python KeyError (a LookupError). -/
inductive PyError where
  | keyError
  | indexError
  | valueError
  | unboundLocal
  | notImplementedError
deriving DecidableEq, Inhabited

/-- ASCII whitespace, the separator set of Python str.split() and of the
regular expression \s as used by the source on these files. -/
def isWS (c : Char) : Bool :=
  c = ' ' || c = '\t' || c = '\n' || c = '\r' || c = '\x0b' || c = '\x0c'

/-- Accumulator-based splitter behind pySplit; acc holds the current
(reversed) token. -/
def pySplitAux : List Char → List Char → List String
  | acc, [] => if acc.isEmpty then [] else [String.mk acc.reverse]
  | acc, c :: cs =>
    if isWS c then
      if acc.isEmpty then pySplitAux [] cs
      else String.mk acc.reverse :: pySplitAux [] cs
    else pySplitAux (c :: acc) cs

/-- Python str.split() with no argument: split on runs of whitespace,
discarding empty fields. -/
def pySplit (s : String) : List String := pySplitAux [] s.toList

/-- Helper for reSplit1: scan for the first whitespace run, pre holds the
(reversed) prefix already scanned. -/
def reSplit1Aux (pre : List Char) : List Char → Option (String × String)
  | [] => none
  | c :: cs =>
    if isWS c then some (String.mk pre.reverse, String.mk (cs.dropWhile isWS))
    else reSplit1Aux (c :: pre) cs

/-- Python re.split(r"\s+", line, 1): split at the first whitespace run
only.  Returns none when the line has no whitespace at all, in which case
the source's two-name unpacking raises ValueError. -/
def reSplit1 (s : String) : Option (String × String) := reSplit1Aux [] s.toList

/-- First-match association-list lookup: the observable behaviour of a
Python dict read (our insertion discipline keeps keys unique). -/
def lookup {α β : Type} [DecidableEq α] : List (α × β) → α → Option β
  | [], _ => none
  | (k', v) :: rest, k => if k' = k then some v else lookup rest k

/-- Python dict assignment d[k] = v: replace in place when the key exists
(preserving insertion order), otherwise append. -/
def updList {α β : Type} [DecidableEq α] : List (α × β) → α → β → List (α × β)
  | [], k, v => [(k, v)]
  | (k', v') :: rest, k, v =>
    if k' = k then (k, v) :: rest else (k', v') :: updList rest k v

def isAlphaAZ (c : Char) : Bool :=
  ('a' ≤ c && c ≤ 'z') || ('A' ≤ c && c ≤ 'Z')

/-- ASCII case folding, the effect of Python str.lower() on the ASCII
range (the only range the [a-zA-Z] substitution of the source can keep). -/
def toLowerCh (c : Char) : Char :=
  if 'A' ≤ c && c ≤ 'Z' then Char.ofNat (c.toNat + 32) else c

/-- EnglishWordTokenizer.tokenize: lowercase the text, replace every
character outside [a-zA-Z] with a space, then split on whitespace runs. -/
def englishTokenize (s : String) : List String :=
  pySplit (String.mk (s.toList.map
    (fun c => let lc := toLowerCh c; if isAlphaAZ lc then lc else ' ')))

/-- The two concrete tokenization policies of the source
(WhiteSpaceTokenizer / EnglishWordTokenizer). -/
inductive TokenizerKind where
  | whitespace
  | english
deriving DecidableEq, Inhabited

def TokenizerKind.tokenize : TokenizerKind → String → List String
  | .whitespace, s => pySplit s
  | .english, s => englishTokenize s

/-- Tokenizer state: the policy plus the two mutually-registering dicts
token_id_index_dict and token_index_id_dict of the source. -/
structure Tokenizer where
  kind : TokenizerKind
  token_id_index_dict : List (String × Nat)
  token_index_id_dict : List (Nat × String)
deriving DecidableEq, Inhabited

def Tokenizer.num_tokens (t : Tokenizer) : Nat := t.token_id_index_dict.length

/-- Tokenizer.get_or_create_token_index: return the existing index if the
identifier was seen before, otherwise assign index = num_tokens() and
record both mappings. -/
def Tokenizer.get_or_create_token_index (t : Tokenizer) (token_id : String) :
    Nat × Tokenizer :=
  match lookup t.token_id_index_dict token_id with
  | some i => (i, t)
  | none =>
    let token_index := t.num_tokens
    (token_index,
      { t with
        token_index_id_dict := t.token_index_id_dict ++ [(token_index, token_id)]
        token_id_index_dict := t.token_id_index_dict ++ [(token_id, token_index)] })

/-- Tokenizer.get_token_index: non-creating dict read (KeyError when the
identifier was never registered). -/
def Tokenizer.get_token_index (t : Tokenizer) (token_id : String) : Option Nat :=
  lookup t.token_id_index_dict token_id

/-- The creating loop of tokenize_to_indices: state-passing map of
get_or_create_token_index over the identifier sequence. -/
def Tokenizer.goc_list (t : Tokenizer) : List String → List Nat × Tokenizer
  | [] => ([], t)
  | token_id :: rest =>
    let p := t.get_or_create_token_index token_id
    let q := p.2.goc_list rest
    (p.1 :: q.1, q.2)

/-- Tokenizer.tokenize_to_indices: tokenize, then map each identifier
through the creating or non-creating lookup, preserving order. -/
def Tokenizer.tokenize_to_indices (t : Tokenizer) (s : String)
    (create_token_index : Bool) : Except PyError (List Nat × Tokenizer) :=
  let token_ids := t.kind.tokenize s
  if create_token_index then .ok (t.goc_list token_ids)
  else
    match token_ids.mapM t.get_token_index with
    | some token_indices => .ok (token_indices, t)
    | none => .error .keyError

/-- The two node categories N_TYPE_NODE / N_TYPE_LABEL. -/
inductive NType where
  | NODE
  | LABEL
deriving DecidableEq, Inhabited

/-- A node attribute value: a features sequence of token indices, or a
label node index. -/
inductive AttrVal where
  | features (token_indices : List Nat)
  | label (label_index : Nat)
deriving DecidableEq, Inhabited

/-- A recorded weighted connection between two (type, index) pairs. -/
structure Edge where
  t0 : NType
  t1 : NType
  i0 : Nat
  i1 : Nat
  w : ℚ
deriving DecidableEq, Inhabited

/-- Modelled from the spec: the external MetaNetwork container
(gnn/data/meta_network.py is not among the provided sources).  Per the
spec's collaborator interface it exposes create-or-get of a dense
per-type integer index for a raw string id (assigned in first-seen
order, same discipline as token indices), an existence test that does
not create, named attribute set/get on a (type, index), weighted edge
insertion, and per-type node counts.  Edge weights are modelled as
rationals standing for the Python floats. -/
structure MetaNetwork where
  nodeDict : List (String × Nat)
  labelDict : List (String × Nat)
  attrs : List ((NType × Nat × String) × AttrVal)
  edges : List Edge
deriving DecidableEq, Inhabited

def emptyNet : MetaNetwork := ⟨[], [], [], []⟩

def MetaNetwork.dict (net : MetaNetwork) : NType → List (String × Nat)
  | .NODE => net.nodeDict
  | .LABEL => net.labelDict

def MetaNetwork.setDict (net : MetaNetwork) : NType → List (String × Nat) → MetaNetwork
  | .NODE, d => { net with nodeDict := d }
  | .LABEL, d => { net with labelDict := d }

def MetaNetwork.num_nodes (net : MetaNetwork) (t : NType) : Nat := (net.dict t).length

def MetaNetwork.has_node_id (net : MetaNetwork) (t : NType) (node_id : String) : Bool :=
  (lookup (net.dict t) node_id).isSome

def MetaNetwork.get_node_index (net : MetaNetwork) (t : NType) (node_id : String) :
    Option Nat :=
  lookup (net.dict t) node_id

def MetaNetwork.get_or_create_node_index (net : MetaNetwork) (t : NType)
    (node_id : String) : Nat × MetaNetwork :=
  match lookup (net.dict t) node_id with
  | some i => (i, net)
  | none =>
    let i := (net.dict t).length
    (i, net.setDict t (net.dict t ++ [(node_id, i)]))

def MetaNetwork.set_node_attr (net : MetaNetwork) (t : NType) (i : Nat)
    (name : String) (v : AttrVal) : MetaNetwork :=
  { net with attrs := updList net.attrs (t, i, name) v }

def MetaNetwork.get_node_attr (net : MetaNetwork) (t : NType) (i : Nat)
    (name : String) : Option AttrVal :=
  lookup net.attrs (t, i, name)

def MetaNetwork.add_edges (net : MetaNetwork) (t0 t1 : NType) (i0 i1 : Nat)
    (w : ℚ) : MetaNetwork :=
  { net with edges := net.edges ++ [⟨t0, t1, i0, i1, w⟩] }

/-- The contents of the data directory: the lines of each input file as
yielded by Python file iteration (a line may carry its trailing
newline; the readers split on whitespace so both forms behave alike). -/
structure DataDir where
  docs : List String
  labels : List String
  adjedges : List String
  edgelist : List String
deriving DecidableEq, Inhabited

def isDigitCh (c : Char) : Bool := '0' ≤ c && c ≤ '9'

def digitsVal (cs : List Char) : Nat :=
  cs.foldl (fun a c => a * 10 + (c.toNat - '0'.toNat)) 0

/-- Modelled from the spec: Python float() applied to the weight field of
an edgelist line.  We model plain decimal literals: optional sign, then
integer digits, an optional point and fraction digits (at least one digit
overall); anything else is a ValueError. -/
def pyFloat (s : String) : Option ℚ :=
  let cs := s.toList
  let signed : Bool × List Char :=
    match cs with
    | '-' :: r => (true, r)
    | '+' :: r => (false, r)
    | r => (false, r)
  let intPart := signed.2.takeWhile isDigitCh
  let rest := signed.2.dropWhile isDigitCh
  let mag : Option ℚ :=
    match rest with
    | [] => if intPart.isEmpty then none else some ((digitsVal intPart : Nat) : ℚ)
    | '.' :: frac =>
      if frac.all isDigitCh && !(intPart.isEmpty && frac.isEmpty) then
        some (((digitsVal intPart : Nat) : ℚ) +
          ((digitsVal frac : Nat) : ℚ) / ((10 : ℚ) ^ frac.length))
      else none
    | _ => none
  match mag with
  | none => none
  | some m => some (if signed.1 then -m else m)

/-- Generic sequential file-read loop: apply the per-line step to each
line in order, aborting on the first error (a raised exception aborts the
whole construction). -/
def readFold {σ : Type} (step : σ → String → Except PyError σ) :
    σ → List String → Except PyError σ
  | st, [] => .ok st
  | st, line :: rest =>
    match step st line with
    | .error e => .error e
    | .ok st' => readFold step st' rest

/-- One line of _read_docs: split off the node id at the first whitespace
run (ValueError when the line cannot be unpacked into two parts),
get-or-create the NODE index, tokenize the remaining text with index
creation enabled, and store the index sequence as the features attribute. -/
def readDocsStep (st : MetaNetwork × Tokenizer) (line : String) :
    Except PyError (MetaNetwork × Tokenizer) :=
  match reSplit1 line with
  | none => .error .valueError
  | some (node_id, sentence) =>
    let p := st.1.get_or_create_node_index .NODE node_id
    match st.2.tokenize_to_indices sentence true with
    | .error e => .error e
    | .ok (token_indices, tok') =>
      .ok (p.2.set_node_attr .NODE p.1 "features" (.features token_indices), tok')

def readDocs (st : MetaNetwork × Tokenizer) (lines : List String) :
    Except PyError (MetaNetwork × Tokenizer) :=
  readFold readDocsStep st lines

/-- Resolution of the node id in one labels line: a non-creating dict
read when the filter flag is set (KeyError when the node is unknown),
get-or-create otherwise. -/
def resolveNodeForLabel (ign : Bool) (net : MetaNetwork) (node_id : String) :
    Except PyError (Nat × MetaNetwork) :=
  if ign then
    match net.get_node_index .NODE node_id with
    | some i => .ok (i, net)
    | none => .error .keyError
  else .ok (net.get_or_create_node_index .NODE node_id)

/-- One line of _read_labels: exactly two whitespace-delimited fields
(ValueError otherwise), resolve the NODE index per the filter flag,
get-or-create the LABEL index, and set the node's label attribute. -/
def readLabelsStep (ign : Bool) (net : MetaNetwork) (line : String) :
    Except PyError MetaNetwork :=
  match pySplit line with
  | [node_id, label_id] =>
    match resolveNodeForLabel ign net node_id with
    | .error e => .error e
    | .ok (node_index, net1) =>
      let p := net1.get_or_create_node_index .LABEL label_id
      .ok (p.2.set_node_attr .NODE node_index "label" (.label p.1))
  | _ => .error .valueError

def readLabels (ign : Bool) (net : MetaNetwork) (lines : List String) :
    Except PyError MetaNetwork :=
  readFold (readLabelsStep ign) net lines

/-- One neighbour of an adjedges line: skip it when the filter is active
and the id is unknown; otherwise get-or-create its index and add an edge
of weight 1.0 unless the two resolved indices coincide. -/
def readAdjNeighbor (ign : Bool) (node_index0 : Nat) (net : MetaNetwork)
    (node_id1 : String) : MetaNetwork :=
  if ign && !(net.has_node_id .NODE node_id1) then net
  else
    let p1 := net.get_or_create_node_index .NODE node_id1
    if node_index0 ≠ p1.1 then p1.2.add_edges .NODE .NODE node_index0 p1.1 1
    else p1.2

/-- One line of _read_adjedges: the first field is the source node
(IndexError on an all-whitespace line); skip the whole line when the
filter is active and that node is unknown; otherwise process each
neighbour in order. -/
def readAdjedgesStep (ign : Bool) (net : MetaNetwork) (line : String) :
    Except PyError MetaNetwork :=
  match pySplit line with
  | [] => .error .indexError
  | node_id0 :: rest =>
    if ign && !(net.has_node_id .NODE node_id0) then .ok net
    else
      let p0 := net.get_or_create_node_index .NODE node_id0
      .ok (rest.foldl (readAdjNeighbor ign p0.1) p0.2)

def readAdjedges (ign : Bool) (net : MetaNetwork) (lines : List String) :
    Except PyError MetaNetwork :=
  readFold (readAdjedgesStep ign) net lines

/-- The weight assignment of one edgelist line: the loop-local variable
weight is reassigned exactly when the line has three fields (ValueError
on an unparsable third field); otherwise it keeps its previous value,
which at the start of the loop is unassigned (modelled as none). -/
def edgelistWeightOf (w0 : Option ℚ) (items : List String) :
    Except PyError (Option ℚ) :=
  if items.length = 3 then
    match items[2]? with
    | some s =>
      match pyFloat s with
      | some q => .ok (some q)
      | none => .error .valueError
    | none => .ok w0
  else .ok w0

/-- One line of _read_edgelist.  Order follows the source: read items[0]
and items[1] (IndexError when missing), update the weight variable on a
three-field line, then apply the existence filter to each endpoint in
turn, and finally add the edge unless the two resolved indices coincide.
Reading the weight variable while it is still unassigned is Python's
UnboundLocalError. -/
def readEdgelistStep (ign : Bool) (st : MetaNetwork × Option ℚ) (line : String) :
    Except PyError (MetaNetwork × Option ℚ) :=
  match (pySplit line)[0]?, (pySplit line)[1]? with
  | none, _ => .error .indexError
  | some _, none => .error .indexError
  | some node_id0, some node_id1 =>
    match edgelistWeightOf st.2 (pySplit line) with
    | .error e => .error e
    | .ok w =>
      if ign && !(st.1.has_node_id .NODE node_id0) then .ok (st.1, w)
      else
        if ign && !((st.1.get_or_create_node_index .NODE node_id0).2.has_node_id
            .NODE node_id1) then
          .ok ((st.1.get_or_create_node_index .NODE node_id0).2, w)
        else
          if (st.1.get_or_create_node_index .NODE node_id0).1 ≠
              ((st.1.get_or_create_node_index .NODE node_id0).2.get_or_create_node_index
                .NODE node_id1).1 then
            match w with
            | some q =>
              .ok (((st.1.get_or_create_node_index .NODE node_id0).2.get_or_create_node_index
                      .NODE node_id1).2.add_edges .NODE .NODE
                    (st.1.get_or_create_node_index .NODE node_id0).1
                    ((st.1.get_or_create_node_index .NODE node_id0).2.get_or_create_node_index
                      .NODE node_id1).1 q, w)
            | none => .error .unboundLocal
          else
            .ok (((st.1.get_or_create_node_index .NODE node_id0).2.get_or_create_node_index
                   .NODE node_id1).2, w)

def readEdgelistLines (ign : Bool) (st : MetaNetwork × Option ℚ)
    (lines : List String) : Except PyError (MetaNetwork × Option ℚ) :=
  readFold (readEdgelistStep ign) st lines

def readEdgelist (ign : Bool) (net : MetaNetwork) (lines : List String) :
    Except PyError MetaNetwork :=
  match readEdgelistLines ign (net, none) lines with
  | .ok st => .ok st.1
  | .error e => .error e

/-- _read_structure: dispatch on the format string; any value other than
"adjedges" selects the edgelist reader. -/
def readStructure (ign : Bool) (data_format : String) (d : DataDir)
    (net : MetaNetwork) : Except PyError MetaNetwork :=
  if data_format = "adjedges" then readAdjedges ign net d.adjedges
  else readEdgelist ign net d.edgelist

/-- The fully constructed dataset state. -/
structure GraphDataset where
  net : MetaNetwork
  tokenizer : Tokenizer
  data_dir : DataDir
  data_format : String
  ignore_featureless_node : Bool
deriving DecidableEq, Inhabited

def emptyEnglishTokenizer : Tokenizer := ⟨.english, [], []⟩

/-- GraphDataset.__init__: store the configuration, default the tokenizer
to a fresh EnglishWordTokenizer, then read documents, labels and
structure in that fixed order.  The source assigns the literal True to
self.ignore_featureless_node (dataset.py line 80), so the passed
ignore_featureless_node argument is never consulted and the readers all
run with the filter active. -/
def constructGraphDataset (data_dir : DataDir) (data_format : String)
    (ignore_featureless_node : Bool) (tokenizer : Option Tokenizer) :
    Except PyError GraphDataset :=
  match readDocs (emptyNet, tokenizer.getD emptyEnglishTokenizer) data_dir.docs with
  | .error e => .error e
  | .ok (net1, tok1) =>
    match readLabels true net1 data_dir.labels with
    | .error e => .error e
    | .ok net2 =>
      match readStructure true data_format data_dir net2 with
      | .error e => .error e
      | .ok net3 =>
        .ok { net := net3, tokenizer := tok1, data_dir := data_dir,
              data_format := data_format, ignore_featureless_node := true }

/-- The features attribute stored for a node, as the sequence the bag-of
words loop iterates over (empty when absent or not a features value;
those cases make the loop fail instead). -/
def featList (net : MetaNetwork) (i : Nat) : List Nat :=
  match net.get_node_attr .NODE i "features" with
  | some (.features ts) => ts
  | _ => []

/-- Whether node index i carries a features attribute. -/
def hasFeatures (net : MetaNetwork) (i : Nat) : Bool :=
  match net.get_node_attr .NODE i "features" with
  | some (.features _) => true
  | _ => false

/-- Every NODE index below the node count carries a features attribute. -/
def featuresTotalB (net : MetaNetwork) : Bool :=
  (List.range (net.num_nodes .NODE)).all (fun i => hasFeatures net i)

/-- Propositional form of featuresTotalB. -/
def featuresBelow (net : MetaNetwork) : Prop :=
  ∀ i, i < net.num_nodes .NODE → hasFeatures net i = true

/-- The (data, row, col) coordinate triples collected by the bag-of-words
loop of feature_matrix: one unit entry per (node, token) occurrence,
node indices visited in range order; KeyError when a node lacks the
features attribute. -/
def bowLoop (net : MetaNetwork) : List Nat → Except PyError (List (Nat × Nat × Nat))
  | [] => .ok []
  | i :: rest =>
    match net.get_node_attr .NODE i "features" with
    | some (.features token_indices) =>
      match bowLoop net rest with
      | .ok triples => .ok (token_indices.map (fun tk => (1, i, tk)) ++ triples)
      | .error e => .error e
    | _ => .error .keyError

/-- Modelled from the spec: scipy csr_matrix sums duplicate coordinate
entries, so the (i, j) cell of the assembled matrix is the sum of the
data values of all triples at that coordinate. -/
def csrEntry (triples : List (Nat × Nat × Nat)) (i j : Nat) : Nat :=
  ((triples.filter (fun tr => tr.2.1 = i && tr.2.2 = j)).map (fun tr => tr.1)).sum

/-- GraphDataset.feature_matrix: only the bag-of-words mode is
implemented; it returns the num_nodes x num_tokens shape together with
the coordinate triples of the sparse matrix. -/
def GraphDataset.feature_matrix (g : GraphDataset) (bag_of_words : Bool) :
    Except PyError (Nat × Nat × List (Nat × Nat × Nat)) :=
  if bag_of_words then
    match bowLoop g.net (List.range (g.net.num_nodes .NODE)) with
    | .ok triples => .ok (g.net.num_nodes .NODE, g.tokenizer.num_tokens, triples)
    | .error e => .error e
  else .error .notImplementedError

/-- Modelled from the spec: the dense conversion (.todense().astype of
the sparse matrix) materialises every cell of the num_nodes x num_tokens
shape; the integral occurrence counts are exactly representable, so each
dense cell is the sparse cell's value cast to the number field. -/
def todenseBow (nn fd : Nat) (triples : List (Nat × Nat × Nat)) : List (List ℚ) :=
  (List.range nn).map (fun i => (List.range fd).map (fun j => ((csrEntry triples i j : Nat) : ℚ)))

/-- feature_matrix with sparse=false: assemble the triples and convert to
the dense matrix. -/
def GraphDataset.feature_matrix_dense (g : GraphDataset) :
    Except PyError (List (List ℚ)) :=
  match g.feature_matrix true with
  | .ok (nn, fd, triples) => .ok (todenseBow nn fd triples)
  | .error e => .error e

/-- The label gather of label_list_or_matrix: each node's label attribute
in node-index order, KeyError when a node lacks one. -/
def labelLoop (net : MetaNetwork) : List Nat → Except PyError (List Nat)
  | [] => .ok []
  | i :: rest =>
    match net.get_node_attr .NODE i "label" with
    | some (.label li) =>
      match labelLoop net rest with
      | .ok ls => .ok (li :: ls)
      | .error e => .error e
    | _ => .error .keyError

def GraphDataset.label_list (g : GraphDataset) : Except PyError (List Nat) :=
  labelLoop g.net (List.range (g.net.num_nodes .NODE))

def GraphDataset.num_classes (g : GraphDataset) : Nat := g.net.num_nodes .LABEL

/-! Properties used by the statements below. -/

/-- Well-formedness of the tokenizer's bidirectional map: distinct
identifiers, index values exactly 0..num_tokens-1 in registration order,
and the reverse dict the entrywise swap of the forward dict. -/
def tokWF (t : Tokenizer) : Prop :=
  (t.token_id_index_dict.map Prod.fst).Nodup ∧
  t.token_id_index_dict.map Prod.snd = List.range t.num_tokens ∧
  t.token_index_id_dict = t.token_id_index_dict.map (fun p => (p.2, p.1))

instance (t : Tokenizer) : Decidable (tokWF t) := by unfold tokWF; infer_instance

/-- Every edge of the second list is either an edge of the first or
connects two distinct indices. -/
def noSelfLoopNew (old new : List Edge) : Prop :=
  ∀ e ∈ new, e ∈ old ∨ e.i0 ≠ e.i1

instance (old new : List Edge) : Decidable (noSelfLoopNew old new) := by
  unfold noSelfLoopNew; infer_instance

/-- No edge of the list is a self-loop. -/
def noSelfLoops (edges : List Edge) : Bool :=
  edges.all (fun e => e.i0 != e.i1)

/-- Every edge of the second list is either an edge of the first or
carries the given weight. -/
def edgesWeightExtend (old new : List Edge) (w : Option ℚ) : Prop :=
  ∀ e ∈ new, e ∈ old ∨ some e.w = w

instance (old new : List Edge) (w : Option ℚ) : Decidable (edgesWeightExtend old new w) := by
  unfold edgesWeightExtend; infer_instance

/-- The pure recomputation of the edgelist weight variable over one
line: reassigned exactly by a parsable three-field line. -/
def lineWeightUpd (w : Option ℚ) (line : String) : Option ℚ :=
  let items := pySplit line
  if items.length = 3 then
    match items[2]? with
    | some s =>
      match pyFloat s with
      | some q => some q
      | none => w
    | none => w
  else w

/-- The value of the edgelist weight variable after a list of lines. -/
def lastWeight (w : Option ℚ) (lines : List String) : Option ℚ :=
  lines.foldl lineWeightUpd w

/-! Concrete inputs used by the witnesses and the counterexample. -/

def D1 : DataDir := ⟨["n1 a"], ["n1 L0"], ["n1"], []⟩

def G1f : GraphDataset :=
  (constructGraphDataset D1 "adjedges" false none).toOption.getD default

def D4 : DataDir :=
  ⟨["n1 the cat sat", "n2 the dog ran"], ["n1 L0", "n2 L1"], ["n1 n2 n1 n3"], []⟩

def G4 : GraphDataset :=
  (constructGraphDataset D4 "adjedges" true none).toOption.getD default

def D5 : DataDir := ⟨["n1 b a b"], ["n1 L0"], ["n1"], []⟩

def G5 : GraphDataset :=
  (constructGraphDataset D5 "adjedges" true none).toOption.getD default

/-- A labels-pass state in which only node n1 is registered. -/
def netC6 : MetaNetwork := ⟨[("n1", 0)], [], [], []⟩

/-- The network and weight state produced by the two-field line c d
from an empty network with carried weight 2 and the filter off. -/
def netC2 : MetaNetwork := ⟨[("c", 0), ("d", 1)], [], [], [⟨.NODE, .NODE, 0, 1, 2⟩]⟩

/-- A structure-pass state in which nodes a and b are registered. -/
def netC9 : MetaNetwork := ⟨[("a", 0), ("b", 1)], [], [], []⟩

def D8 : DataDir := ⟨["n1 a b a"], ["n1 L0"], ["n1"], []⟩

def G8 : GraphDataset :=
  (constructGraphDataset D8 "adjedges" true none).toOption.getD default

/-- Edgelist input for the C9 counterexample: a two-field line whose two
endpoints both pass the existence filter, with no three-field line
anywhere, on which construction nevertheless succeeds because the two
identifiers resolve to the same index. -/
def D9 : DataDir := ⟨["a x"], ["a L"], [], ["a a"]⟩

def G9 : GraphDataset :=
  (constructGraphDataset D9 "edgelist" true none).toOption.getD default

def D10 : DataDir := ⟨["n1 a"], ["n1 L0"], ["n1"], []⟩

def G10 : GraphDataset :=
  (constructGraphDataset D10 "adjedges" true none).toOption.getD default

/-! Association-list lemmas. -/

theorem lookup_eq_none_iff {α β : Type} [DecidableEq α] (d : List (α × β)) (k : α) :
    lookup d k = none ↔ k ∉ d.map Prod.fst := by
  induction d with
  | nil => simp [lookup]
  | cons p rest ih =>
    obtain ⟨k', v'⟩ := p
    by_cases h : k' = k
    · subst h; simp [lookup]
    · simp only [lookup, if_neg h, List.map_cons, List.mem_cons, not_or]
      rw [ih]
      exact ⟨fun hk => ⟨fun hc => h hc.symm, hk⟩, fun hk => hk.2⟩

theorem lookup_mem {α β : Type} [DecidableEq α] :
    ∀ (d : List (α × β)) (k : α) (v : β), lookup d k = some v → (k, v) ∈ d := by
  intro d
  induction d with
  | nil => intro k v h; simp [lookup] at h
  | cons p rest ih =>
    intro k v h
    obtain ⟨k', v'⟩ := p
    by_cases hk : k' = k
    · subst hk
      unfold lookup at h
      rw [if_pos rfl] at h
      cases h
      exact List.mem_cons_self _ _
    · unfold lookup at h
      rw [if_neg hk] at h
      exact List.mem_cons_of_mem _ (ih k v h)

theorem lookup_append {α β : Type} [DecidableEq α] (d₁ d₂ : List (α × β)) (k : α) :
    lookup (d₁ ++ d₂) k =
      match lookup d₁ k with
      | some v => some v
      | none => lookup d₂ k := by
  induction d₁ with
  | nil => simp [lookup]
  | cons p rest ih =>
    obtain ⟨k', v'⟩ := p
    by_cases h : k' = k <;> simp [lookup, h, ih]

theorem lookup_updList_self {α β : Type} [DecidableEq α] (d : List (α × β)) (k : α) (v : β) :
    lookup (updList d k v) k = some v := by
  induction d with
  | nil => simp [updList, lookup]
  | cons p rest ih =>
    obtain ⟨k', v'⟩ := p
    by_cases h : k' = k <;> simp [updList, lookup, h, ih]

theorem lookup_updList_ne {α β : Type} [DecidableEq α] (d : List (α × β)) (k : α) (v : β)
    (k' : α) (h : k' ≠ k) : lookup (updList d k v) k' = lookup d k' := by
  induction d with
  | nil => simp [updList, lookup, Ne.symm h]
  | cons p rest ih =>
    obtain ⟨k'', v''⟩ := p
    by_cases h2 : k'' = k
    · subst h2
      simp [updList, lookup, Ne.symm h]
    · simp [updList, lookup, h2, ih]

theorem lookup_inj {α β : Type} [DecidableEq α] {d : List (α × β)}
    (hnd : (d.map Prod.snd).Nodup) {k₁ k₂ : α} {v : β}
    (h₁ : lookup d k₁ = some v) (h₂ : lookup d k₂ = some v) : k₁ = k₂ := by
  have m₁ := lookup_mem d k₁ v h₁
  have m₂ := lookup_mem d k₂ v h₂
  have heq := List.inj_on_of_nodup_map hnd m₁ m₂ rfl
  exact congrArg Prod.fst heq

/-! MetaNetwork container lemmas. -/

theorem setDict_dict_self (net : MetaNetwork) (t : NType) (d : List (String × Nat)) :
    (net.setDict t d).dict t = d := by
  cases t <;> rfl

theorem setDict_attrs (net : MetaNetwork) (t : NType) (d : List (String × Nat)) :
    (net.setDict t d).attrs = net.attrs := by
  cases t <;> rfl

theorem setDict_edges (net : MetaNetwork) (t : NType) (d : List (String × Nat)) :
    (net.setDict t d).edges = net.edges := by
  cases t <;> rfl

theorem setDict_LABEL_nodeDict (net : MetaNetwork) (d : List (String × Nat)) :
    (net.setDict .LABEL d).nodeDict = net.nodeDict := rfl

theorem goc_found {net : MetaNetwork} {t : NType} {nid : String} {i : Nat}
    (h : lookup (net.dict t) nid = some i) :
    net.get_or_create_node_index t nid = (i, net) := by
  unfold MetaNetwork.get_or_create_node_index
  rw [h]

theorem goc_new {net : MetaNetwork} {t : NType} {nid : String}
    (h : lookup (net.dict t) nid = none) :
    net.get_or_create_node_index t nid =
      ((net.dict t).length,
        net.setDict t (net.dict t ++ [(nid, (net.dict t).length)])) := by
  unfold MetaNetwork.get_or_create_node_index
  rw [h]

theorem goc_attrs (net : MetaNetwork) (t : NType) (nid : String) :
    (net.get_or_create_node_index t nid).2.attrs = net.attrs := by
  cases hl : lookup (net.dict t) nid with
  | none => rw [goc_new hl]; exact setDict_attrs net t _
  | some i => rw [goc_found hl]

theorem goc_edges (net : MetaNetwork) (t : NType) (nid : String) :
    (net.get_or_create_node_index t nid).2.edges = net.edges := by
  cases hl : lookup (net.dict t) nid with
  | none => rw [goc_new hl]; exact setDict_edges net t _
  | some i => rw [goc_found hl]

theorem goc_of_has {net : MetaNetwork} {t : NType} {nid : String}
    (h : net.has_node_id t nid = true) :
    (net.get_or_create_node_index t nid).2 = net := by
  unfold MetaNetwork.has_node_id at h
  cases hl : lookup (net.dict t) nid with
  | none => rw [hl] at h; simp at h
  | some i => rw [goc_found hl]

theorem goc_LABEL_nodeDict (net : MetaNetwork) (nid : String) :
    (net.get_or_create_node_index .LABEL nid).2.nodeDict = net.nodeDict := by
  cases hl : lookup (net.dict .LABEL) nid with
  | none => rw [goc_new hl]; rfl
  | some i => rw [goc_found hl]

theorem set_attr_nodeDict (net : MetaNetwork) (t : NType) (i : Nat) (name : String)
    (v : AttrVal) : (net.set_node_attr t i name v).nodeDict = net.nodeDict := rfl

theorem set_attr_edges (net : MetaNetwork) (t : NType) (i : Nat) (name : String)
    (v : AttrVal) : (net.set_node_attr t i name v).edges = net.edges := rfl

theorem add_edges_attrs (net : MetaNetwork) (t0 t1 : NType) (i0 i1 : Nat) (w : ℚ) :
    (net.add_edges t0 t1 i0 i1 w).attrs = net.attrs := rfl

theorem add_edges_nodeDict (net : MetaNetwork) (t0 t1 : NType) (i0 i1 : Nat) (w : ℚ) :
    (net.add_edges t0 t1 i0 i1 w).nodeDict = net.nodeDict := rfl

theorem getattr_set_self (net : MetaNetwork) (t : NType) (i : Nat) (name : String)
    (v : AttrVal) : (net.set_node_attr t i name v).get_node_attr t i name = some v :=
  lookup_updList_self _ _ _

theorem getattr_set_ne (net : MetaNetwork) (t : NType) (i : Nat) (name : String)
    (v : AttrVal) (t' : NType) (i' : Nat) (name' : String)
    (h : (t', i', name') ≠ (t, i, name)) :
    (net.set_node_attr t i name v).get_node_attr t' i' name' =
      net.get_node_attr t' i' name' :=
  lookup_updList_ne _ _ _ _ h

/-! Generic read-loop lemmas. -/

theorem readFold_preserve {σ : Type} (step : σ → String → Except PyError σ)
    (P : σ → Prop) (hstep : ∀ s l s', P s → step s l = .ok s' → P s') :
    ∀ (lines : List String) (s s' : σ), P s → readFold step s lines = .ok s' → P s' := by
  intro lines
  induction lines with
  | nil =>
    intro s s' hP h
    unfold readFold at h
    cases h
    exact hP
  | cons line rest ih =>
    intro s s' hP h
    unfold readFold at h
    cases hs : step s line with
    | error e => rw [hs] at h; cases h
    | ok s₁ => rw [hs] at h; exact ih s₁ s' (hstep s line s₁ hP hs) h

theorem construct_destruct {d : DataDir} {fmt : String} {b : Bool}
    {tok : Option Tokenizer} {g : GraphDataset}
    (h : constructGraphDataset d fmt b tok = .ok g) :
    ∃ net1 tok1 net2 net3,
      readDocs (emptyNet, tok.getD emptyEnglishTokenizer) d.docs = .ok (net1, tok1) ∧
      readLabels true net1 d.labels = .ok net2 ∧
      readStructure true fmt d net2 = .ok net3 ∧
      g = { net := net3, tokenizer := tok1, data_dir := d, data_format := fmt,
            ignore_featureless_node := true } := by
  unfold constructGraphDataset at h
  cases h1 : readDocs (emptyNet, tok.getD emptyEnglishTokenizer) d.docs with
  | error e => rw [h1] at h; cases h
  | ok p =>
    obtain ⟨net1, tok1⟩ := p
    rw [h1] at h
    dsimp only at h
    cases h2 : readLabels true net1 d.labels with
    | error e => rw [h2] at h; cases h
    | ok net2 =>
      rw [h2] at h
      dsimp only at h
      cases h3 : readStructure true fmt d net2 with
      | error e => rw [h3] at h; cases h
      | ok net3 =>
        rw [h3] at h
        dsimp only at h
        cases h
        exact ⟨net1, tok1, net2, net3, rfl, h2, h3, rfl⟩

/-! Features-attribute invariant through the three passes. -/

theorem hasFeatures_attrs_eq {net net' : MetaNetwork} (h : net'.attrs = net.attrs)
    (i : Nat) : hasFeatures net' i = hasFeatures net i := by
  unfold hasFeatures MetaNetwork.get_node_attr
  rw [h]

theorem hasFeatures_set_features (net : MetaNetwork) (i : Nat) (ts : List Nat) :
    hasFeatures (net.set_node_attr .NODE i "features" (.features ts)) i = true := by
  unfold hasFeatures
  rw [getattr_set_self]

theorem hasFeatures_set_ne (net : MetaNetwork) (t : NType) (j : Nat) (name : String)
    (v : AttrVal) (i : Nat) (h : (NType.NODE, i, "features") ≠ (t, j, name)) :
    hasFeatures (net.set_node_attr t j name v) i = hasFeatures net i := by
  unfold hasFeatures
  rw [getattr_set_ne _ _ _ _ _ _ _ _ h]

theorem num_nodes_set_attr (net : MetaNetwork) (t : NType) (j : Nat) (name : String)
    (v : AttrVal) (t' : NType) :
    (net.set_node_attr t j name v).num_nodes t' = net.num_nodes t' := by
  cases t' <;> rfl

theorem featuresTotalB_iff (net : MetaNetwork) :
    featuresTotalB net = true ↔ featuresBelow net := by
  unfold featuresTotalB featuresBelow
  rw [List.all_eq_true]
  constructor
  · intro h i hi; exact h i (List.mem_range.mpr hi)
  · intro h i hi; exact h i (List.mem_range.mp hi)

theorem readDocsStep_features {st st' : MetaNetwork × Tokenizer} {line : String}
    (hP : featuresBelow st.1) (h : readDocsStep st line = .ok st') :
    featuresBelow st'.1 := by
  unfold readDocsStep at h
  cases hr : reSplit1 line with
  | none => rw [hr] at h; cases h
  | some p =>
    obtain ⟨nid, sent⟩ := p
    rw [hr] at h
    dsimp only at h
    cases ht : st.2.tokenize_to_indices sent true with
    | error e => rw [ht] at h; cases h
    | ok q =>
      obtain ⟨tks, tok'⟩ := q
      rw [ht] at h
      dsimp only at h
      cases h
      cases hl : lookup (st.1.dict .NODE) nid with
      | some j =>
        rw [goc_found hl]
        intro i hi
        rw [num_nodes_set_attr] at hi
        by_cases hij : i = j
        · subst hij
          exact hasFeatures_set_features _ _ _
        · rw [hasFeatures_set_ne _ _ _ _ _ _ (by simp [hij])]
          exact hP i hi
      | none =>
        rw [goc_new hl]
        intro i hi
        rw [num_nodes_set_attr] at hi
        have hlen : (st.1.setDict .NODE (st.1.dict .NODE ++
            [(nid, (st.1.dict .NODE).length)])).num_nodes .NODE =
            (st.1.dict .NODE).length + 1 := by
          unfold MetaNetwork.num_nodes
          rw [setDict_dict_self]
          simp
        rw [hlen] at hi
        by_cases hij : i = (st.1.dict .NODE).length
        · subst hij
          exact hasFeatures_set_features _ _ _
        · rw [hasFeatures_set_ne _ _ _ _ _ _ (by simp [hij])]
          rw [hasFeatures_attrs_eq (setDict_attrs _ _ _)]
          have hnum : st.1.num_nodes .NODE = (st.1.dict .NODE).length := rfl
          exact hP i (by rw [hnum]; omega)

theorem readDocs_features {lines : List String} {st st' : MetaNetwork × Tokenizer}
    (hP : featuresBelow st.1) (h : readDocs st lines = .ok st') :
    featuresBelow st'.1 :=
  readFold_preserve readDocsStep (fun s => featuresBelow s.1)
    (fun _ _ _ hs he => readDocsStep_features hs he) lines st st' hP h

/-- The labels pass with the filter active never touches the NODE dict,
the edges, or any features attribute. -/
theorem readLabelsStep_true_preserves {net net' : MetaNetwork} {line : String}
    (h : readLabelsStep true net line = .ok net') :
    net'.nodeDict = net.nodeDict ∧ net'.edges = net.edges ∧
    (∀ i, hasFeatures net' i = hasFeatures net i) := by
  unfold readLabelsStep at h
  rcases hs : pySplit line with - | ⟨nid, - | ⟨lid, - | ⟨x, rest⟩⟩⟩ <;>
    rw [hs] at h <;> try cases h
  dsimp only at h
  unfold resolveNodeForLabel at h
  rw [if_pos rfl] at h
  cases hg : net.get_node_index .NODE nid with
  | none => rw [hg] at h; cases h
  | some ni =>
    rw [hg] at h
    dsimp only at h
    cases h
    refine ⟨?_, ?_, ?_⟩
    · rw [set_attr_nodeDict, goc_LABEL_nodeDict]
    · rw [set_attr_edges, goc_edges]
    · intro i
      rw [hasFeatures_set_ne _ _ _ _ _ _ (by simp)]
      exact hasFeatures_attrs_eq (goc_attrs _ _ _) i

theorem foldl_preserve {σ α : Type} (f : σ → α → σ) (P : σ → Prop)
    (hf : ∀ s a, P s → P (f s a)) : ∀ (l : List α) (s : σ), P s → P (l.foldl f s) := by
  intro l
  induction l with
  | nil => intro s hs; exact hs
  | cons a t ih => intro s hs; exact ih (f s a) (hf s a hs)

/-- A neighbour visit with the filter active never touches the NODE dict
or the attributes, and only appends edges with distinct endpoints. -/
theorem readAdjNeighbor_true_preserves (i0 : Nat) (net : MetaNetwork) (nid : String) :
    (readAdjNeighbor true i0 net nid).nodeDict = net.nodeDict ∧
    (readAdjNeighbor true i0 net nid).attrs = net.attrs ∧
    noSelfLoopNew net.edges (readAdjNeighbor true i0 net nid).edges := by
  unfold readAdjNeighbor
  by_cases hh : net.has_node_id .NODE nid = true
  · rw [if_neg (by simp [hh])]
    dsimp only
    rw [goc_of_has hh]
    by_cases hne : i0 ≠ (net.get_or_create_node_index .NODE nid).1
    · rw [if_pos hne]
      refine ⟨rfl, rfl, ?_⟩
      intro e he
      unfold MetaNetwork.add_edges at he
      simp only [List.mem_append, List.mem_singleton] at he
      cases he with
      | inl hm => exact Or.inl hm
      | inr hm => subst hm; exact Or.inr hne
    · rw [if_neg hne]
      exact ⟨rfl, rfl, fun e he => Or.inl he⟩
  · rw [if_pos (by simp [Bool.not_eq_true] at hh; simp [hh])]
    exact ⟨rfl, rfl, fun e he => Or.inl he⟩

theorem readAdjedgesStep_true_preserves {net net' : MetaNetwork} {line : String}
    (h : readAdjedgesStep true net line = .ok net') :
    net'.nodeDict = net.nodeDict ∧ net'.attrs = net.attrs ∧
    noSelfLoopNew net.edges net'.edges := by
  unfold readAdjedgesStep at h
  cases hs : pySplit line with
  | nil => rw [hs] at h; cases h
  | cons nid0 rest =>
    rw [hs] at h
    dsimp only at h
    by_cases hh : net.has_node_id .NODE nid0 = true
    · rw [if_neg (by simp [hh])] at h
      cases h
      rw [goc_of_has hh]
      exact foldl_preserve (readAdjNeighbor true (net.get_or_create_node_index .NODE nid0).1)
        (fun s => s.nodeDict = net.nodeDict ∧ s.attrs = net.attrs ∧
          noSelfLoopNew net.edges s.edges)
        (fun s a hPs => by
          obtain ⟨hd, ha, hE⟩ := hPs
          obtain ⟨hd', ha', hE'⟩ := readAdjNeighbor_true_preserves
            (net.get_or_create_node_index .NODE nid0).1 s a
          refine ⟨hd'.trans hd, ha'.trans ha, ?_⟩
          intro e he
          cases hE' e he with
          | inl hm => exact hE e hm
          | inr hne => exact Or.inr hne)
        rest net ⟨rfl, rfl, fun e he => Or.inl he⟩
    · rw [if_pos (by simp [Bool.not_eq_true] at hh; simp [hh])] at h
      cases h
      exact ⟨rfl, rfl, fun e he => Or.inl he⟩

/-! Edgelist step analysis. -/

theorem edgelistWeightOf_ok {w0 : Option ℚ} {items : List String} {w : Option ℚ}
    (h : edgelistWeightOf w0 items = .ok w) :
    w = (if items.length = 3 then
           match items[2]? with
           | some s =>
             match pyFloat s with
             | some q => some q
             | none => w0
           | none => w0
         else w0) := by
  unfold edgelistWeightOf at h
  by_cases h3 : items.length = 3
  · rw [if_pos h3] at h ⊢
    cases h2 : items[2]? with
    | none =>
      rw [h2] at h
      dsimp only at h
      cases h
      rfl
    | some s =>
      rw [h2] at h
      dsimp only at h ⊢
      cases hp : pyFloat s with
      | none => rw [hp] at h; dsimp only at h; cases h
      | some q => rw [hp] at h; dsimp only at h; cases h; rfl
  · rw [if_neg h3] at h ⊢; cases h; rfl

/-- Full case analysis of a successful edgelist line: the resulting
weight state is the pure recomputation lineWeightUpd, attributes are
untouched, at most one edge is appended and it carries the current
weight state with distinct endpoints, and with the filter active the
NODE dict is untouched. -/
theorem readEdgelistStep_ok {ign : Bool} {st st' : MetaNetwork × Option ℚ}
    {line : String} (h : readEdgelistStep ign st line = .ok st') :
    st'.2 = lineWeightUpd st.2 line ∧
    st'.1.attrs = st.1.attrs ∧
    (st'.1.edges = st.1.edges ∨
      ∃ i0 i1 q, i0 ≠ i1 ∧ st'.2 = some q ∧
        st'.1.edges = st.1.edges ++ [⟨.NODE, .NODE, i0, i1, q⟩]) ∧
    (ign = true → st'.1.nodeDict = st.1.nodeDict) := by
  unfold readEdgelistStep at h
  cases h0 : (pySplit line)[0]? with
  | none => rw [h0] at h; cases h
  | some nid0 =>
    rw [h0] at h
    cases h1 : (pySplit line)[1]? with
    | none => rw [h1] at h; cases h
    | some nid1 =>
      rw [h1] at h
      dsimp only at h
      cases hw : edgelistWeightOf st.2 (pySplit line) with
      | error e => rw [hw] at h; cases h
      | ok w =>
        rw [hw] at h
        dsimp only at h
        have hwv : w = lineWeightUpd st.2 line := by
          rw [edgelistWeightOf_ok hw]; rfl
        by_cases hf0 : ign && !(st.1.has_node_id .NODE nid0)
        · rw [if_pos hf0] at h
          cases h
          exact ⟨hwv, rfl, Or.inl rfl, fun _ => rfl⟩
        · rw [if_neg hf0] at h
          by_cases hf1 : ign &&
              !((st.1.get_or_create_node_index .NODE nid0).2.has_node_id .NODE nid1)
          · rw [if_pos hf1] at h
            cases h
            refine ⟨hwv, goc_attrs _ _ _, Or.inl (goc_edges _ _ _), fun hig => ?_⟩
            subst hig
            simp only [Bool.true_and, Bool.not_eq_true'] at hf0
            have := goc_of_has (by simpa using hf0)
            rw [this]
          · rw [if_neg hf1] at h
            by_cases hne : (st.1.get_or_create_node_index .NODE nid0).1 ≠
                ((st.1.get_or_create_node_index .NODE nid0).2.get_or_create_node_index
                  .NODE nid1).1
            · rw [if_pos hne] at h
              cases hwc : w with
              | none => rw [hwc] at h; cases h
              | some q =>
                rw [hwc] at h
                cases h
                refine ⟨hwc ▸ hwv, ?_, ?_, fun hig => ?_⟩
                · show ((_ : MetaNetwork).add_edges _ _ _ _ _).attrs = st.1.attrs
                  rw [add_edges_attrs, goc_attrs, goc_attrs]
                · refine Or.inr ⟨_, _, q, hne, rfl, ?_⟩
                  show ((_ : MetaNetwork).add_edges _ _ _ _ _).edges = _
                  unfold MetaNetwork.add_edges
                  rw [goc_edges, goc_edges]
                · subst hig
                  simp only [Bool.true_and, Bool.not_eq_true'] at hf0 hf1
                  show ((_ : MetaNetwork).add_edges _ _ _ _ _).nodeDict = st.1.nodeDict
                  rw [add_edges_nodeDict]
                  have h1has : (st.1.get_or_create_node_index .NODE nid0).2.has_node_id
                      .NODE nid1 = true := by simpa using hf1
                  have h0has : st.1.has_node_id .NODE nid0 = true := by
                    simpa using hf0
                  rw [goc_of_has h1has, goc_of_has h0has]
            · rw [if_neg hne] at h
              cases h
              refine ⟨hwv, ?_, ?_, fun hig => ?_⟩
              · rw [goc_attrs, goc_attrs]
              · exact Or.inl (by rw [goc_edges, goc_edges])
              · subst hig
                simp only [Bool.true_and, Bool.not_eq_true'] at hf0 hf1
                have h1has : (st.1.get_or_create_node_index .NODE nid0).2.has_node_id
                    .NODE nid1 = true := by simpa using hf1
                have h0has : st.1.has_node_id .NODE nid0 = true := by
                  simpa using hf0
                rw [goc_of_has h1has, goc_of_has h0has]

theorem readFold_edgelist_weight {ign : Bool} :
    ∀ (lines : List String) (st st' : MetaNetwork × Option ℚ),
      readFold (readEdgelistStep ign) st lines = .ok st' →
      st'.2 = lastWeight st.2 lines := by
  intro lines
  induction lines with
  | nil =>
    intro st st' h
    unfold readFold at h
    cases h
    rfl
  | cons line rest ih =>
    intro st st' h
    unfold readFold at h
    cases hs : readEdgelistStep ign st line with
    | error e => rw [hs] at h; cases h
    | ok st₁ =>
      rw [hs] at h
      have hw := (readEdgelistStep_ok hs).1
      have hrec := ih st₁ st' h
      rw [hrec, hw]
      rfl

/-- With the filter active, a two-field line whose endpoints are both
registered and resolve to distinct indices, reached while the weight
variable is still unassigned, raises UnboundLocalError. -/
theorem readEdgelistStep_unbound {net : MetaNetwork} {line node_id0 node_id1 : String}
    (hs : pySplit line = [node_id0, node_id1])
    (h0 : net.has_node_id .NODE node_id0 = true)
    (h1 : net.has_node_id .NODE node_id1 = true)
    (hne : (net.get_or_create_node_index .NODE node_id0).1 ≠
        ((net.get_or_create_node_index .NODE node_id0).2.get_or_create_node_index
          .NODE node_id1).1) :
    readEdgelistStep true (net, none) line = .error .unboundLocal := by
  unfold readEdgelistStep
  rw [hs]
  simp only [List.getElem?_cons_zero, List.getElem?_cons_succ]
  have hwof : edgelistWeightOf (net, (none : Option ℚ)).2 [node_id0, node_id1] =
      .ok none := by
    unfold edgelistWeightOf
    rw [if_neg (by simp)]
  rw [hwof]
  dsimp only
  rw [if_neg (by simp [h0])]
  have h1' : (net.get_or_create_node_index .NODE node_id0).2.has_node_id
      .NODE node_id1 = true := by
    rw [goc_of_has h0]
    exact h1
  rw [if_neg (by simp [h1']), if_pos hne]

/-- The labels pass with the filter active never touches the NODE dict,
the edges, or any features attribute. -/
theorem readLabels_true_preserves {lines : List String} {net net' : MetaNetwork}
    (h : readLabels true net lines = .ok net') :
    net'.nodeDict = net.nodeDict ∧ net'.edges = net.edges ∧
    (∀ i, hasFeatures net' i = hasFeatures net i) := by
  refine readFold_preserve (readLabelsStep true)
    (fun s => s.nodeDict = net.nodeDict ∧ s.edges = net.edges ∧
      (∀ i, hasFeatures s i = hasFeatures net i))
    ?_ lines net net' ⟨rfl, rfl, fun _ => rfl⟩ h
  intro s l s' hP hstep
  obtain ⟨hd, he, hf⟩ := hP
  obtain ⟨hd', he', hf'⟩ := readLabelsStep_true_preserves hstep
  exact ⟨hd'.trans hd, he'.trans he, fun i => (hf' i).trans (hf i)⟩

/-- The docs pass never touches the edges. -/
theorem readDocsStep_edges {st st' : MetaNetwork × Tokenizer} {line : String}
    (h : readDocsStep st line = .ok st') : st'.1.edges = st.1.edges := by
  unfold readDocsStep at h
  cases hr : reSplit1 line with
  | none => rw [hr] at h; cases h
  | some p =>
    obtain ⟨nid, sent⟩ := p
    rw [hr] at h
    dsimp only at h
    cases ht : st.2.tokenize_to_indices sent true with
    | error e => rw [ht] at h; cases h
    | ok q =>
      obtain ⟨tks, tok'⟩ := q
      rw [ht] at h
      dsimp only at h
      cases h
      show ((_ : MetaNetwork).set_node_attr _ _ _ _).edges = st.1.edges
      rw [set_attr_edges, goc_edges]

theorem readDocs_edges {lines : List String} {st st' : MetaNetwork × Tokenizer}
    (h : readDocs st lines = .ok st') : st'.1.edges = st.1.edges :=
  readFold_preserve readDocsStep (fun s => s.1.edges = st.1.edges)
    (fun s l s' hP he => (readDocsStep_edges he).trans hP) lines st st' rfl h

/-- Either structure reader with the filter active never touches the
NODE dict or the attributes, and appends only edges with distinct
endpoints. -/
theorem readStructure_true_preserves {fmt : String} {d : DataDir}
    {net net' : MetaNetwork} (h : readStructure true fmt d net = .ok net') :
    net'.nodeDict = net.nodeDict ∧ (∀ i, hasFeatures net' i = hasFeatures net i) ∧
    noSelfLoopNew net.edges net'.edges := by
  unfold readStructure at h
  by_cases hfmt : fmt = "adjedges"
  · rw [if_pos hfmt] at h
    have := readFold_preserve (readAdjedgesStep true)
      (fun s => s.nodeDict = net.nodeDict ∧ s.attrs = net.attrs ∧
        noSelfLoopNew net.edges s.edges)
      ?_ d.adjedges net net' ⟨rfl, rfl, fun e he => Or.inl he⟩ h
    · exact ⟨this.1, fun i => hasFeatures_attrs_eq this.2.1 i, this.2.2⟩
    · intro s l s' hP hstep
      obtain ⟨hd, ha, hE⟩ := hP
      obtain ⟨hd', ha', hE'⟩ := readAdjedgesStep_true_preserves hstep
      refine ⟨hd'.trans hd, ha'.trans ha, fun e he => ?_⟩
      cases hE' e he with
      | inl hm => exact hE e hm
      | inr hne => exact Or.inr hne
  · rw [if_neg hfmt] at h
    unfold readEdgelist at h
    cases hl : readEdgelistLines true (net, none) d.edgelist with
    | error e => rw [hl] at h; cases h
    | ok st =>
      rw [hl] at h
      cases h
      unfold readEdgelistLines at hl
      have := readFold_preserve (readEdgelistStep true)
        (fun s : MetaNetwork × Option ℚ => s.1.nodeDict = net.nodeDict ∧
          s.1.attrs = net.attrs ∧ noSelfLoopNew net.edges s.1.edges)
        ?_ d.edgelist (net, none) st ⟨rfl, rfl, fun e he => Or.inl he⟩ hl
      · exact ⟨this.1, fun i => hasFeatures_attrs_eq this.2.1 i, this.2.2⟩
      · intro s l s' hP hstep
        obtain ⟨hd, ha, hE⟩ := hP
        obtain ⟨-, ha', hE', hd'⟩ := readEdgelistStep_ok hstep
        refine ⟨(hd' rfl).trans hd, ha'.trans ha, fun e he => ?_⟩
        cases hE' with
        | inl hee => rw [hee] at he; exact hE e he
        | inr hex =>
          obtain ⟨i0, i1, q, hne, -, hee⟩ := hex
          rw [hee] at he
          rw [List.mem_append, List.mem_singleton] at he
          cases he with
          | inl hm => exact hE e hm
          | inr hm => subst hm; exact Or.inr hne

theorem num_nodes_NODE (net : MetaNetwork) :
    net.num_nodes .NODE = net.nodeDict.length := rfl

theorem featuresBelow_empty : featuresBelow emptyNet := by
  intro i hi
  have h0 : emptyNet.num_nodes .NODE = 0 := rfl
  rw [h0] at hi
  exact absurd hi (Nat.not_lt_zero i)

/-- Combined invariant of a successful construction: every NODE index
has a features attribute, the NODE dict is exactly the one created by
the documents pass, and no recorded edge is a self-loop. -/
theorem construct_invariants {d : DataDir} {fmt : String} {b : Bool}
    {tok : Option Tokenizer} {g : GraphDataset}
    (h : constructGraphDataset d fmt b tok = .ok g) :
    featuresBelow g.net ∧
    (∃ net1 tok1,
      readDocs (emptyNet, tok.getD emptyEnglishTokenizer) d.docs = .ok (net1, tok1) ∧
      g.net.nodeDict = net1.nodeDict) ∧
    noSelfLoops g.net.edges = true := by
  obtain ⟨net1, tok1, net2, net3, h1, h2, h3, hg⟩ := construct_destruct h
  subst hg
  have hfb1 : featuresBelow net1 :=
    readDocs_features
      (show featuresBelow (emptyNet, tok.getD emptyEnglishTokenizer).1 from
        featuresBelow_empty) h1
  have he1 : net1.edges = [] := readDocs_edges h1
  obtain ⟨hd2, he2, hf2⟩ := readLabels_true_preserves h2
  obtain ⟨hd3, hf3, hE3⟩ := readStructure_true_preserves h3
  refine ⟨?_, ⟨net1, tok1, h1, hd3.trans hd2⟩, ?_⟩
  · intro i hi
    rw [num_nodes_NODE, hd3, hd2, ← num_nodes_NODE] at hi
    rw [hf3 i, hf2 i]
    exact hfb1 i hi
  · rw [noSelfLoops, List.all_eq_true]
    intro e he
    cases hE3 e he with
    | inl hm => rw [he2, he1] at hm; cases hm
    | inr hne => simpa using hne

/-! Bag-of-words matrix lemmas. -/

theorem csrEntry_append (l1 l2 : List (Nat × Nat × Nat)) (i j : Nat) :
    csrEntry (l1 ++ l2) i j = csrEntry l1 i j + csrEntry l2 i j := by
  unfold csrEntry
  rw [List.filter_append, List.map_append, List.sum_append]

theorem csrEntry_map_row (ts : List Nat) (r : Nat) (n tk : Nat) :
    csrEntry (ts.map (fun u => (1, r, u))) n tk =
      if r = n then ts.count tk else 0 := by
  induction ts with
  | nil => simp [csrEntry]
  | cons u rest ih =>
    unfold csrEntry at ih ⊢
    simp only [List.map_cons, List.filter_cons]
    by_cases hr : r = n
    · by_cases hu : u = tk
      · rw [if_pos (by simp [hr, hu])]
        simp only [List.map_cons, List.sum_cons]
        rw [ih, if_pos hr, if_pos hr]
        subst hu
        rw [List.count_cons_self]
        omega
      · rw [if_neg (by simp [hu])]
        rw [ih, if_pos hr, if_pos hr]
        rw [List.count_cons_of_ne (fun hc => hu hc.symm)]
    · rw [if_neg (by simp [hr])]
      rw [ih, if_neg hr, if_neg hr]

theorem bowLoop_ok {net : MetaNetwork} :
    ∀ (l : List Nat), l.Nodup → (∀ i ∈ l, hasFeatures net i = true) →
      ∃ triples, bowLoop net l = .ok triples ∧
        ∀ n tk, csrEntry triples n tk =
          if n ∈ l then (featList net n).count tk else 0 := by
  intro l
  induction l with
  | nil =>
    intro _ _
    exact ⟨[], rfl, fun n tk => by simp [csrEntry]⟩
  | cons i rest ih =>
    intro hnd hall
    obtain ⟨hni, hndr⟩ := List.nodup_cons.mp hnd
    obtain ⟨tr, htr, hspec⟩ := ih hndr (fun j hj => hall j (List.mem_cons_of_mem _ hj))
    have hi := hall i (List.mem_cons_self _ _)
    unfold hasFeatures at hi
    cases hA : net.get_node_attr .NODE i "features" with
    | none => rw [hA] at hi; simp at hi
    | some v =>
      cases v with
      | label li => rw [hA] at hi; simp at hi
      | features ts =>
        refine ⟨ts.map (fun u => (1, i, u)) ++ tr, ?_, ?_⟩
        · rw [bowLoop, hA]
          dsimp only
          rw [htr]
        · intro n tk
          rw [csrEntry_append, csrEntry_map_row, hspec]
          have hfl : featList net i = ts := by unfold featList; rw [hA]
          by_cases hn : n = i
          · subst hn
            rw [if_pos rfl, if_neg hni, if_pos (List.mem_cons_self _ _), hfl]
            omega
          · rw [if_neg (fun hc => hn hc.symm)]
            by_cases hm : n ∈ rest
            · rw [if_pos hm, if_pos (List.mem_cons_of_mem _ hm)]
              omega
            · rw [if_neg hm, if_neg (by simp [hn, hm])]

theorem feature_matrix_spec {g : GraphDataset} (hfb : featuresBelow g.net) :
    ∃ triples,
      g.feature_matrix true = .ok (g.net.num_nodes .NODE, g.tokenizer.num_tokens, triples) ∧
      ∀ n tk, csrEntry triples n tk =
        if n < g.net.num_nodes .NODE then (featList g.net n).count tk else 0 := by
  obtain ⟨tr, htr, hspec⟩ := bowLoop_ok (List.range (g.net.num_nodes .NODE))
    (List.nodup_range _) (fun i hi => hfb i (List.mem_range.mp hi))
  refine ⟨tr, ?_, ?_⟩
  · unfold GraphDataset.feature_matrix
    rw [if_pos rfl, htr]
  · intro n tk
    rw [hspec n tk]
    by_cases hn : n < g.net.num_nodes .NODE
    · rw [if_pos (List.mem_range.mpr hn), if_pos hn]
    · rw [if_neg (fun hc => hn (List.mem_range.mp hc)), if_neg hn]

theorem getD_map_range {α : Type} (f : Nat → α) (nn n : Nat) (h : n < nn) (dv : α) :
    (((List.range nn).map f).getD n dv) = f n := by
  rw [List.getD_eq_getElem?_getD]
  rw [List.getElem?_map]
  rw [List.getElem?_range h]
  rfl

/-- The dense conversion agrees with the sparse entries cell by cell. -/
theorem todenseBow_entry (nn fd : Nat) (triples : List (Nat × Nat × Nat))
    (n tk : Nat) (hn : n < nn) (htk : tk < fd) :
    ((todenseBow nn fd triples).getD n []).getD tk 0 =
      ((csrEntry triples n tk : Nat) : ℚ) := by
  unfold todenseBow
  rw [getD_map_range _ _ _ hn]
  rw [getD_map_range _ _ _ htk]

/-! Tokenization character-level lemmas. -/

/-- Every token produced by the split is nonempty and its characters
come from the accumulator or are non-whitespace input characters. -/
theorem pySplitAux_chars :
    ∀ (cs acc : List Char) (tok : String), tok ∈ pySplitAux acc cs →
      tok.toList ≠ [] ∧ ∀ c ∈ tok.toList, c ∈ acc ∨ (c ∈ cs ∧ isWS c = false) := by
  intro cs
  induction cs with
  | nil =>
    intro acc tok htok
    unfold pySplitAux at htok
    by_cases ha : acc.isEmpty
    · rw [if_pos ha] at htok; cases htok
    · rw [if_neg ha] at htok
      rw [List.mem_singleton] at htok
      subst htok
      have htl : (String.mk acc.reverse).toList = acc.reverse := rfl
      constructor
      · rw [htl]
        simp only [ne_eq, List.reverse_eq_nil_iff]
        intro hc
        exact ha (by rw [hc]; rfl)
      · intro c hc
        rw [htl, List.mem_reverse] at hc
        exact Or.inl hc
  | cons c0 cs ih =>
    intro acc tok htok
    unfold pySplitAux at htok
    by_cases hw : isWS c0
    · rw [if_pos hw] at htok
      by_cases ha : acc.isEmpty
      · rw [if_pos ha] at htok
        obtain ⟨hne, hch⟩ := ih [] tok htok
        refine ⟨hne, fun c hc => ?_⟩
        cases hch c hc with
        | inl h => cases h
        | inr h => exact Or.inr ⟨List.mem_cons_of_mem _ h.1, h.2⟩
      · rw [if_neg ha] at htok
        rw [List.mem_cons] at htok
        cases htok with
        | inl heq =>
          subst heq
          have htl : (String.mk acc.reverse).toList = acc.reverse := rfl
          constructor
          · rw [htl]
            simp only [ne_eq, List.reverse_eq_nil_iff]
            intro hc
            exact ha (by rw [hc]; rfl)
          · intro c hc
            rw [htl, List.mem_reverse] at hc
            exact Or.inl hc
        | inr hmem =>
          obtain ⟨hne, hch⟩ := ih [] tok hmem
          refine ⟨hne, fun c hc => ?_⟩
          cases hch c hc with
          | inl h => cases h
          | inr h => exact Or.inr ⟨List.mem_cons_of_mem _ h.1, h.2⟩
    · rw [if_neg hw] at htok
      obtain ⟨hne, hch⟩ := ih (c0 :: acc) tok htok
      refine ⟨hne, fun c hc => ?_⟩
      cases hch c hc with
      | inl h =>
        rw [List.mem_cons] at h
        cases h with
        | inl heq =>
          subst heq
          exact Or.inr ⟨List.mem_cons_self _ _, by
            rw [Bool.not_eq_true] at hw; exact hw⟩
        | inr h2 => exact Or.inl h2
      | inr h => exact Or.inr ⟨List.mem_cons_of_mem _ h.1, h.2⟩

/-- A character kept by the [a-zA-Z] test after case folding lies in
the lowercase range. -/
theorem toLowerCh_bounds {c : Char} (h : isAlphaAZ (toLowerCh c) = true) :
    'a' ≤ toLowerCh c ∧ toLowerCh c ≤ 'z' := by
  unfold toLowerCh at h ⊢
  by_cases hup : ('A' ≤ c && c ≤ 'Z') = true
  · rw [if_pos hup] at h ⊢
    simp only [Bool.and_eq_true, decide_eq_true_eq] at hup
    obtain ⟨h1, h2⟩ := hup
    simp only [Char.le_def] at h1 h2
    have h1' : 65 ≤ c.toNat := h1
    have h2' : c.toNat ≤ 90 := h2
    have hv : (c.toNat + 32).isValidChar := by left; omega
    have hofn : (Char.ofNat (c.toNat + 32)).toNat = c.toNat + 32 := by
      unfold Char.ofNat
      rw [dif_pos hv]
      rfl
    constructor
    · show (97 : Nat) ≤ (Char.ofNat (c.toNat + 32)).toNat
      rw [hofn]; omega
    · show (Char.ofNat (c.toNat + 32)).toNat ≤ (122 : Nat)
      rw [hofn]; omega
  · rw [if_neg hup] at h ⊢
    unfold isAlphaAZ at h
    rw [Bool.or_eq_true] at h
    cases h with
    | inl hlow => simpa using hlow
    | inr hup2 => exact absurd hup2 hup

/-- Every token of EnglishWordTokenizer.tokenize is a nonempty run of
lowercase alphabetic characters. -/
theorem englishTokenize_tokens {s w : String} (hw : w ∈ englishTokenize s) :
    w ≠ "" ∧ ∀ c ∈ w.toList, 'a' ≤ c ∧ c ≤ 'z' := by
  unfold englishTokenize pySplit at hw
  obtain ⟨hne, hch⟩ := pySplitAux_chars _ [] w hw
  refine ⟨fun hc => hne (by rw [hc]; rfl), fun c hc => ?_⟩
  cases hch c hc with
  | inl h => cases h
  | inr h =>
    obtain ⟨hmem, hnws⟩ := h
    have hmem' : c ∈ s.toList.map
        (fun c => let lc := toLowerCh c; if isAlphaAZ lc then lc else ' ') := hmem
    rw [List.mem_map] at hmem'
    obtain ⟨c0, -, hc0⟩ := hmem'
    dsimp only at hc0
    by_cases hap : isAlphaAZ (toLowerCh c0) = true
    · rw [if_pos hap] at hc0
      rw [← hc0]
      exact toLowerCh_bounds hap
    · rw [if_neg hap] at hc0
      exact absurd (hc0 ▸ hnws : isWS ' ' = false) (by decide)

/-! Tokenizer index-assignment lemmas. -/

theorem lookup_append_single_ne {α β : Type} [DecidableEq α] (d : List (α × β))
    (k k' : α) (v : β) (h : k ≠ k') :
    lookup (d ++ [(k, v)]) k' = lookup d k' := by
  rw [lookup_append]
  cases hd : lookup d k' with
  | some x => rfl
  | none => simp [lookup, h]

theorem lookup_append_single_self {α β : Type} [DecidableEq α] (d : List (α × β))
    (k : α) (v : β) (h : lookup d k = none) :
    lookup (d ++ [(k, v)]) k = some v := by
  rw [lookup_append, h]
  simp [lookup]

theorem goc_tok_found {t : Tokenizer} {tid : String} {i : Nat}
    (h : lookup t.token_id_index_dict tid = some i) :
    t.get_or_create_token_index tid = (i, t) := by
  unfold Tokenizer.get_or_create_token_index
  rw [h]

theorem goc_tok_new {t : Tokenizer} {tid : String}
    (h : lookup t.token_id_index_dict tid = none) :
    t.get_or_create_token_index tid =
      (t.num_tokens,
        { t with
          token_index_id_dict := t.token_index_id_dict ++ [(t.num_tokens, tid)]
          token_id_index_dict := t.token_id_index_dict ++ [(tid, t.num_tokens)] }) := by
  unfold Tokenizer.get_or_create_token_index
  rw [h]

theorem tokWF_snd_nodup {t : Tokenizer} (hwf : tokWF t) :
    (t.token_id_index_dict.map Prod.snd).Nodup := by
  rw [hwf.2.1]
  exact List.nodup_range _

theorem tokWF_lookup_lt {t : Tokenizer} (hwf : tokWF t) {tid : String} {v : Nat}
    (h : lookup t.token_id_index_dict tid = some v) : v < t.num_tokens := by
  have hm := lookup_mem _ _ _ h
  have hv : v ∈ t.token_id_index_dict.map Prod.snd :=
    List.mem_map_of_mem Prod.snd hm
  rw [hwf.2.1] at hv
  exact List.mem_range.mp hv

theorem tokWF_goc {t : Tokenizer} (hwf : tokWF t) (tid : String) :
    tokWF (t.get_or_create_token_index tid).2 := by
  cases hl : lookup t.token_id_index_dict tid with
  | some i => rw [goc_tok_found hl]; exact hwf
  | none =>
    rw [goc_tok_new hl]
    obtain ⟨h1, h2, h3⟩ := hwf
    refine ⟨?_, ?_, ?_⟩
    · show ((t.token_id_index_dict ++ [(tid, t.num_tokens)]).map Prod.fst).Nodup
      rw [List.map_append]
      rw [List.nodup_append]
      refine ⟨h1, List.nodup_singleton _, ?_⟩
      intro x hx hx2
      rw [List.map_singleton, List.mem_singleton] at hx2
      subst hx2
      exact (lookup_eq_none_iff _ _).mp hl hx
    · show (t.token_id_index_dict ++ [(tid, t.num_tokens)]).map Prod.snd =
        List.range (t.token_id_index_dict ++ [(tid, t.num_tokens)]).length
      rw [List.map_append, h2, List.length_append]
      show List.range t.num_tokens ++ [t.num_tokens] =
        List.range (t.token_id_index_dict.length + 1)
      rw [List.range_succ]
      rfl
    · show t.token_index_id_dict ++ [(t.num_tokens, tid)] =
        (t.token_id_index_dict ++ [(tid, t.num_tokens)]).map (fun p => (p.2, p.1))
      rw [List.map_append, ← h3]
      rfl

theorem tokWF_reverse_lookup_none {t : Tokenizer} (hwf : tokWF t) :
    lookup t.token_index_id_dict t.num_tokens = none := by
  rw [lookup_eq_none_iff, hwf.2.2, List.map_map]
  have hc : (Prod.fst ∘ fun p : String × Nat => (p.2, p.1)) = Prod.snd := rfl
  rw [hc, hwf.2.1]
  simp

theorem goc_tok_new_fst {t : Tokenizer} {tid : String}
    (h : lookup t.token_id_index_dict tid = none) :
    (t.get_or_create_token_index tid).1 = t.num_tokens := by
  rw [goc_tok_new h]

theorem goc_tok_new_dict {t : Tokenizer} {tid : String}
    (h : lookup t.token_id_index_dict tid = none) :
    (t.get_or_create_token_index tid).2.token_id_index_dict =
      t.token_id_index_dict ++ [(tid, t.num_tokens)] := by
  rw [goc_tok_new h]

theorem goc_tok_new_rev {t : Tokenizer} {tid : String}
    (h : lookup t.token_id_index_dict tid = none) :
    (t.get_or_create_token_index tid).2.token_index_id_dict =
      t.token_index_id_dict ++ [(t.num_tokens, tid)] := by
  rw [goc_tok_new h]

theorem goc_tok_new_num {t : Tokenizer} {tid : String}
    (h : lookup t.token_id_index_dict tid = none) :
    (t.get_or_create_token_index tid).2.num_tokens = t.num_tokens + 1 := by
  show (t.get_or_create_token_index tid).2.token_id_index_dict.length = _
  rw [goc_tok_new_dict h, List.length_append]
  rfl

/-! The claims. -/

/-- C1: for every value (true or false) of the constructor argument
ignore_featureless_node, GraphDataset construction sets the internal
filter field to true, and the whole construction result is identical to
the one with the argument true, so the filtering behaviour during the
labels and structure passes is identical regardless of the argument. -/
theorem c1_filter_hardcoded (d : DataDir) (fmt : String) (b : Bool)
    (tok : Option Tokenizer) :
    (∀ g, constructGraphDataset d fmt b tok = .ok g →
       g.ignore_featureless_node = true) ∧
    constructGraphDataset d fmt b tok = constructGraphDataset d fmt true tok := by
  refine ⟨?_, rfl⟩
  intro g h
  obtain ⟨net1, tok1, net2, net3, -, -, -, hg⟩ := construct_destruct h
  rw [hg]

/-- Witness for C1: a concrete construction with the argument false
still stores true. -/
theorem c1_filter_hardcoded_witness : G1f.ignore_featureless_node = true :=
  (c1_filter_hardcoded D1 "adjedges" false none).1 G1f (by decide)

/-- C2: a two-field edgelist line leaves the carried weight unchanged
and any edge it inserts carries exactly the carried weight (not a fixed
default of 1.0); over a list of lines the carried weight ends as the
most recently parsed third field (lastWeight), so a two-field line that
follows a weighted line uses that earlier line's parsed weight. -/
theorem c2_weight_carryover :
    (∀ (ign : Bool) (net : MetaNetwork) (w : Option ℚ) (line : String)
       (net' : MetaNetwork) (w' : Option ℚ),
       (pySplit line).length = 2 →
       readEdgelistStep ign (net, w) line = .ok (net', w') →
       w' = w ∧ edgesWeightExtend net.edges net'.edges w) ∧
    (∀ (ign : Bool) (lines : List String) (st st' : MetaNetwork × Option ℚ),
       readEdgelistLines ign st lines = .ok st' →
       st'.2 = lastWeight st.2 lines) := by
  constructor
  · intro ign net w line net' w' hlen hstep
    obtain ⟨hw, -, hE, -⟩ := readEdgelistStep_ok hstep
    have hupd : lineWeightUpd w line = w := by
      unfold lineWeightUpd
      rw [if_neg (by omega)]
    have hw2 : w' = w := by
      have hw3 : w' = lineWeightUpd w line := hw
      rw [hupd] at hw3
      exact hw3
    refine ⟨hw2, ?_⟩
    intro e he
    cases hE with
    | inl hee =>
      have hee2 : net'.edges = net.edges := hee
      rw [hee2] at he
      exact Or.inl he
    | inr hex =>
      obtain ⟨i0, i1, q, hne, hq, hee⟩ := hex
      have hq2 : w' = some q := hq
      have hee2 : net'.edges = net.edges ++ [⟨.NODE, .NODE, i0, i1, q⟩] := hee
      rw [hee2, List.mem_append, List.mem_singleton] at he
      cases he with
      | inl hm => exact Or.inl hm
      | inr hm =>
        subst hm
        refine Or.inr ?_
        rw [← hw2, ← hq2]
  · intro ign lines st st' h
    unfold readEdgelistLines at h
    exact readFold_edgelist_weight lines st st' h

/-- Witness for C2: with carried weight 2, the two-field line c d keeps
the weight and the inserted edge carries 2; the carried weight after the
line list equals lastWeight. -/
theorem c2_weight_carryover_witness :
    (some (2 : ℚ) = some 2 ∧ edgesWeightExtend emptyNet.edges netC2.edges (some 2)) ∧
    (netC2, some (2 : ℚ)).2 = lastWeight (some 2) ["c d"] := by
  constructor
  · exact c2_weight_carryover.1 false emptyNet (some 2) "c d" netC2 (some 2)
      (by decide) (by decide)
  · exact c2_weight_carryover.2 false ["c d"] (emptyNet, some 2) (netC2, some 2)
      (by decide)

/-- C3: on a well-formed tokenizer, get_or_create_token_index returns
the existing index for a seen identifier with the state (hence
num_tokens) unchanged and is idempotent; for a fresh identifier it
assigns the next integer equal to the current num_tokens() and records
both the forward and the reverse mapping; well-formedness is preserved,
distinct identifiers receive distinct indices, and the assigned index
values are exactly 0..num_tokens-1 with no gaps. -/
theorem c3_tokenizer_index_invariants (t : Tokenizer) (tid : String)
    (hwf : tokWF t) :
    tokWF (t.get_or_create_token_index tid).2 ∧
    (∀ j, lookup t.token_id_index_dict tid = some j →
       t.get_or_create_token_index tid = (j, t)) ∧
    (lookup t.token_id_index_dict tid = none →
       (t.get_or_create_token_index tid).1 = t.num_tokens ∧
       (t.get_or_create_token_index tid).2.num_tokens = t.num_tokens + 1 ∧
       lookup (t.get_or_create_token_index tid).2.token_id_index_dict tid =
         some t.num_tokens ∧
       lookup (t.get_or_create_token_index tid).2.token_index_id_dict
         t.num_tokens = some tid) ∧
    ((t.get_or_create_token_index tid).2.get_or_create_token_index tid =
       ((t.get_or_create_token_index tid).1,
        (t.get_or_create_token_index tid).2)) ∧
    (∀ tid2, tid ≠ tid2 →
       (t.get_or_create_token_index tid).1 ≠
       ((t.get_or_create_token_index tid).2.get_or_create_token_index tid2).1) ∧
    (t.get_or_create_token_index tid).2.token_id_index_dict.map Prod.snd =
      List.range (t.get_or_create_token_index tid).2.num_tokens := by
  have hwf' := tokWF_goc hwf tid
  cases hl : lookup t.token_id_index_dict tid with
  | some i =>
    refine ⟨hwf', ?_, ?_, ?_, ?_, hwf'.2.1⟩
    · intro j hj
      cases hj
      exact goc_tok_found hl
    · intro hn
      exact Option.noConfusion hn
    · rw [goc_tok_found hl]
      exact goc_tok_found hl
    · intro tid2 hne2
      rw [goc_tok_found hl]
      cases hl2 : lookup t.token_id_index_dict tid2 with
      | some b =>
        rw [goc_tok_found hl2]
        intro hc
        have hib : i = b := hc
        exact hne2 (lookup_inj (tokWF_snd_nodup hwf) hl (hib ▸ hl2))
      | none =>
        rw [goc_tok_new hl2]
        intro hc
        have hib : i = t.num_tokens := hc
        have hlt := tokWF_lookup_lt hwf hl
        omega
  | none =>
    have hself : lookup (t.get_or_create_token_index tid).2.token_id_index_dict tid =
        some t.num_tokens := by
      rw [goc_tok_new_dict hl]
      exact lookup_append_single_self _ _ _ hl
    refine ⟨hwf', ?_, ?_, ?_, ?_, hwf'.2.1⟩
    · intro j hj
      exact Option.noConfusion hj
    · intro _
      refine ⟨goc_tok_new_fst hl, goc_tok_new_num hl, hself, ?_⟩
      rw [goc_tok_new_rev hl]
      exact lookup_append_single_self _ _ _ (tokWF_reverse_lookup_none hwf)
    · have hfound : lookup (t.get_or_create_token_index tid).2.token_id_index_dict
          tid = some (t.get_or_create_token_index tid).1 := by
        rw [hself, goc_tok_new_fst hl]
      exact goc_tok_found hfound
    · intro tid2 hne2
      have hdict2 : lookup (t.get_or_create_token_index tid).2.token_id_index_dict
          tid2 = lookup t.token_id_index_dict tid2 := by
        rw [goc_tok_new_dict hl]
        exact lookup_append_single_ne _ _ _ _ hne2
      cases hl2 : lookup t.token_id_index_dict tid2 with
      | some b =>
        rw [goc_tok_found (hdict2.trans hl2), goc_tok_new_fst hl]
        intro hc
        have hib : t.num_tokens = b := hc
        have hlt := tokWF_lookup_lt hwf hl2
        omega
      | none =>
        rw [goc_tok_new (hdict2.trans hl2), goc_tok_new_fst hl]
        intro hc
        have hib : t.num_tokens =
            (t.get_or_create_token_index tid).2.num_tokens := hc
        rw [goc_tok_new_num hl] at hib
        omega

/-- Witness for C3 on a fresh tokenizer and the identifiers x and y. -/
theorem c3_tokenizer_index_invariants_witness :
    tokWF (emptyEnglishTokenizer.get_or_create_token_index "x").2 ∧
    (emptyEnglishTokenizer.get_or_create_token_index "x").1 ≠
      ((emptyEnglishTokenizer.get_or_create_token_index "x").2.get_or_create_token_index
        "y").1 := by
  have h := c3_tokenizer_index_invariants emptyEnglishTokenizer "x" (by decide)
  exact ⟨h.1, h.2.2.2.2.1 "y" (by decide)⟩

/-- A neighbour visit appends at most one edge and that edge has
distinct endpoints, for either filter value. -/
theorem readAdjNeighbor_edges (ign : Bool) (i0 : Nat) (net : MetaNetwork)
    (nid : String) : noSelfLoopNew net.edges (readAdjNeighbor ign i0 net nid).edges := by
  unfold readAdjNeighbor
  by_cases hh : (ign && !(net.has_node_id .NODE nid)) = true
  · rw [if_pos hh]
    exact fun e he => Or.inl he
  · rw [if_neg hh]
    dsimp only
    by_cases hne : i0 ≠ (net.get_or_create_node_index .NODE nid).1
    · rw [if_pos hne]
      intro e he
      have he2 : e ∈ (net.get_or_create_node_index .NODE nid).2.edges ++
          [⟨.NODE, .NODE, i0, (net.get_or_create_node_index .NODE nid).1, 1⟩] := he
      rw [goc_edges, List.mem_append, List.mem_singleton] at he2
      cases he2 with
      | inl hm => exact Or.inl hm
      | inr hm => subst hm; exact Or.inr hne
    · rw [if_neg hne]
      intro e he
      rw [goc_edges] at he
      exact Or.inl he

/-- An adjedges line appends only edges with distinct endpoints, for
either filter value. -/
theorem readAdjedgesStep_edges {ign : Bool} {net net' : MetaNetwork} {line : String}
    (h : readAdjedgesStep ign net line = .ok net') :
    noSelfLoopNew net.edges net'.edges := by
  unfold readAdjedgesStep at h
  cases hs : pySplit line with
  | nil => rw [hs] at h; cases h
  | cons nid0 rest =>
    rw [hs] at h
    dsimp only at h
    by_cases hf : (ign && !(net.has_node_id .NODE nid0)) = true
    · rw [if_pos hf] at h
      cases h
      exact fun e he => Or.inl he
    · rw [if_neg hf] at h
      cases h
      have hbase : noSelfLoopNew net.edges
          (net.get_or_create_node_index .NODE nid0).2.edges := by
        rw [goc_edges]
        exact fun e he => Or.inl he
      exact foldl_preserve
        (readAdjNeighbor ign (net.get_or_create_node_index .NODE nid0).1)
        (fun s => noSelfLoopNew net.edges s.edges)
        (fun s a hP e he => by
          cases readAdjNeighbor_edges ign _ s a e he with
          | inl hm => exact hP e hm
          | inr hne => exact Or.inr hne)
        rest _ hbase

/-- C4: in either structure format no self-loop edge is ever added —
every edge of a successfully constructed dataset connects two distinct
NODE indices, and at the line level (edgelist step, adjedges step) every
edge inserted beyond the already-present ones has distinct endpoints, so
a line whose two identifiers resolve to equal indices inserts nothing. -/
theorem c4_no_self_loops :
    (∀ (d : DataDir) (fmt : String) (b : Bool) (tok : Option Tokenizer)
       (g : GraphDataset), constructGraphDataset d fmt b tok = .ok g →
       noSelfLoops g.net.edges = true) ∧
    (∀ (ign : Bool) (st st' : MetaNetwork × Option ℚ) (line : String),
       readEdgelistStep ign st line = .ok st' →
       noSelfLoopNew st.1.edges st'.1.edges) ∧
    (∀ (ign : Bool) (net net' : MetaNetwork) (line : String),
       readAdjedgesStep ign net line = .ok net' →
       noSelfLoopNew net.edges net'.edges) := by
  refine ⟨?_, ?_, ?_⟩
  · intro d fmt b tok g h
    exact (construct_invariants h).2.2
  · intro ign st st' line h
    obtain ⟨-, -, hE, -⟩ := readEdgelistStep_ok h
    intro e he
    cases hE with
    | inl hee => rw [hee] at he; exact Or.inl he
    | inr hex =>
      obtain ⟨i0, i1, q, hne, -, hee⟩ := hex
      rw [hee, List.mem_append, List.mem_singleton] at he
      cases he with
      | inl hm => exact Or.inl hm
      | inr hm => subst hm; exact Or.inr hne
  · intro ign net net' line h
    exact readAdjedgesStep_edges h

/-- Witness for C4 on a concrete dataset whose adjedges line contains a
repeated endpoint. -/
theorem c4_no_self_loops_witness : noSelfLoops G4.net.edges = true :=
  c4_no_self_loops.1 D4 "adjedges" true none G4 (by decide)

/-- C5: for every constructed dataset, feature_matrix in bag-of-words
mode succeeds with the num_nodes x num_tokens shape, the (n, t) sparse
entry is exactly the number of occurrences of token index t in node n's
stored features sequence (repeats accumulate, all other entries zero),
and with sparse=false the dense matrix holds the same values. -/
theorem c5_feature_matrix_counts (d : DataDir) (fmt : String) (b : Bool)
    (tok : Option Tokenizer) (g : GraphDataset)
    (h : constructGraphDataset d fmt b tok = .ok g) :
    (g.feature_matrix true).isOk = true ∧
    (∀ nn fd triples, g.feature_matrix true = .ok (nn, fd, triples) →
       nn = g.net.num_nodes .NODE ∧ fd = g.tokenizer.num_tokens ∧
       (∀ n tk, csrEntry triples n tk =
         if n < nn then (featList g.net n).count tk else 0) ∧
       g.feature_matrix_dense = .ok (todenseBow nn fd triples) ∧
       (∀ n tk, n < nn → tk < fd →
         ((todenseBow nn fd triples).getD n []).getD tk 0 =
           ((csrEntry triples n tk : Nat) : ℚ))) := by
  have hfb : featuresBelow g.net := (construct_invariants h).1
  obtain ⟨tr, htr, hspec⟩ := feature_matrix_spec hfb
  constructor
  · rw [htr]
    rfl
  · intro nn fd triples heq
    rw [htr] at heq
    cases heq
    refine ⟨rfl, rfl, hspec, ?_, ?_⟩
    · unfold GraphDataset.feature_matrix_dense
      rw [htr]
    · intro n tk hn htk
      exact todenseBow_entry _ _ _ _ _ hn htk

/-- Witness for C5: on the document n1 b a b, token b (index 0) occurs
twice in node 0, and the assembled sparse entry accumulates to 2. -/
theorem c5_feature_matrix_counts_witness :
    csrEntry [(1, 0, 0), (1, 0, 1), (1, 0, 0)] 0 0 = 2 := by
  have h := (c5_feature_matrix_counts D5 "adjedges" true none G5 (by decide)).2
    1 2 [(1, 0, 0), (1, 0, 1), (1, 0, 0)] (by decide)
  have h2 := h.2.2.1 0 0
  rw [h2]
  decide

/-- C6: during the labels pass with the filter active, a line whose
node_id is not registered fails with the KeyError (LookupError) kind
rather than creating a NODE index (the pass never grows the NODE dict);
with the filter flag false the same line succeeds and creates the node. -/
theorem c6_labels_filter (net : MetaNetwork) (line node_id label_id : String)
    (hsplit : pySplit line = [node_id, label_id])
    (habs : net.has_node_id .NODE node_id = false) :
    readLabelsStep true net line = .error .keyError ∧
    (∀ (net₂ net₂' : MetaNetwork) (line₂ : String),
       readLabelsStep true net₂ line₂ = .ok net₂' →
       net₂'.nodeDict = net₂.nodeDict) ∧
    (readLabelsStep false net line).isOk = true ∧
    (∀ net', readLabelsStep false net line = .ok net' →
       net'.nodeDict = net.nodeDict ++ [(node_id, net.nodeDict.length)]) := by
  have hl : lookup (net.dict .NODE) node_id = none := by
    unfold MetaNetwork.has_node_id at habs
    exact Option.not_isSome_iff_eq_none.mp (by rw [habs]; exact Bool.false_ne_true)
  have hstep_false : readLabelsStep false net line =
      .ok (((net.setDict .NODE (net.dict .NODE ++
              [(node_id, (net.dict .NODE).length)])).get_or_create_node_index
            .LABEL label_id).2.set_node_attr .NODE (net.dict .NODE).length "label"
          (.label ((net.setDict .NODE (net.dict .NODE ++
              [(node_id, (net.dict .NODE).length)])).get_or_create_node_index
            .LABEL label_id).1)) := by
    unfold readLabelsStep
    rw [hsplit]
    dsimp only
    unfold resolveNodeForLabel
    rw [if_neg (by simp), goc_new hl]
  refine ⟨?_, ?_, ?_, ?_⟩
  · unfold readLabelsStep
    rw [hsplit]
    dsimp only
    unfold resolveNodeForLabel
    rw [if_pos rfl]
    unfold MetaNetwork.get_node_index
    rw [hl]
  · intro net₂ net₂' line₂ hstep
    exact (readLabelsStep_true_preserves hstep).1
  · rw [hstep_false]
    rfl
  · intro net' hstep
    rw [hstep_false] at hstep
    cases hstep
    rw [set_attr_nodeDict, goc_LABEL_nodeDict]
    show (net.setDict .NODE (net.dict .NODE ++
      [(node_id, (net.dict .NODE).length)])).nodeDict = _
    rfl

/-- Witness for C6 on a network that registered only n1: the line
n2 L0 fails under the filter and succeeds without it. -/
theorem c6_labels_filter_witness :
    readLabelsStep true netC6 "n2 L0" = .error .keyError ∧
    (readLabelsStep false netC6 "n2 L0").isOk = true := by
  have h := c6_labels_filter netC6 "n2 L0" "n2" "L0" (by decide) (by decide)
  exact ⟨h.1, h.2.2.1⟩

/-- C7: EnglishWordTokenizer.tokenize lowercases the input, replaces
every character outside [a-zA-Z] with a space, and splits on whitespace
runs: tokenize of the example returns exactly cats, dogs (numeric and
punctuation fragments dropped), and in general every produced token is a
nonempty run of lowercase alphabetic characters. -/
theorem c7_english_tokenizer :
    englishTokenize "Cats, Dogs! 123" = ["cats", "dogs"] ∧
    TokenizerKind.english.tokenize "Cats, Dogs! 123" = ["cats", "dogs"] ∧
    ∀ (s w : String), w ∈ englishTokenize s →
      w ≠ "" ∧ ∀ c ∈ w.toList, 'a' ≤ c ∧ c ≤ 'z' := by
  refine ⟨by decide, by decide, ?_⟩
  intro s w hw
  exact englishTokenize_tokens hw

/-- Witness for the universally quantified part of C7 on the example. -/
theorem c7_english_tokenizer_witness :
    ("cats" : String) ≠ "" ∧ ∀ c ∈ ("cats" : String).toList, 'a' ≤ c ∧ c ≤ 'z' :=
  c7_english_tokenizer.2.2 "Cats, Dogs! 123" "cats" (by decide)

/-- C8: construction is deterministic — it is a pure function of the
input files, format selector, flag, and tokenizer, so two runs on fresh
instances yield the same result, and equal results carry identical
token and node index assignments and identical derived matrices. -/
theorem c8_construction_deterministic (d : DataDir) (fmt : String) (b : Bool)
    (tok : Option Tokenizer) :
    constructGraphDataset d fmt b tok = constructGraphDataset d fmt b tok ∧
    (∀ g1 g2, constructGraphDataset d fmt b tok = .ok g1 →
       constructGraphDataset d fmt b tok = .ok g2 →
       g1 = g2 ∧ g1.tokenizer = g2.tokenizer ∧ g1.net = g2.net ∧
       g1.feature_matrix true = g2.feature_matrix true ∧
       g1.label_list = g2.label_list) := by
  refine ⟨rfl, ?_⟩
  intro g1 g2 h1 h2
  rw [h1] at h2
  cases h2
  exact ⟨rfl, rfl, rfl, rfl, rfl⟩

/-- Witness for C8 on a concrete dataset. -/
theorem c8_construction_deterministic_witness :
    G8 = G8 ∧ G8.tokenizer = G8.tokenizer ∧ G8.net = G8.net ∧
    G8.feature_matrix true = G8.feature_matrix true ∧
    G8.label_list = G8.label_list :=
  (c8_construction_deterministic D8 "adjedges" true none).2 G8 G8 (by decide)
    (by decide)

/-- C9 (amended): in edgelist format the weight variable is untouched
by any line without exactly three fields, and a two-field line whose two
endpoints both pass the existence filter and resolve to distinct
indices, reached while the weight variable is still unassigned, fails
with an unbound-local-variable error (not a FormatError). -/
theorem c9_unbound_weight_amended :
    (∀ (ign : Bool) (st out : MetaNetwork × Option ℚ) (line : String),
       (pySplit line).length ≠ 3 →
       readEdgelistStep ign st line = .ok out → out.2 = st.2) ∧
    (∀ (net : MetaNetwork) (line node_id0 node_id1 : String),
       pySplit line = [node_id0, node_id1] →
       net.has_node_id .NODE node_id0 = true →
       net.has_node_id .NODE node_id1 = true →
       (net.get_or_create_node_index .NODE node_id0).1 ≠
         ((net.get_or_create_node_index .NODE node_id0).2.get_or_create_node_index
           .NODE node_id1).1 →
       readEdgelistStep true (net, none) line = .error .unboundLocal) := by
  constructor
  · intro ign st out line hlen h
    have hw := (readEdgelistStep_ok h).1
    rw [hw]
    unfold lineWeightUpd
    rw [if_neg hlen]
  · intro net line n0 n1 hs h0 h1 hne
    exact readEdgelistStep_unbound hs h0 h1 hne

/-- Counterexample to C9 as stated: docs registers the single node a,
and the edgelist is the single two-field line a a — both endpoints pass
the existence filter and no line anywhere carries a third field — yet
construction succeeds, because the two identifiers resolve to the same
index and the edge-insertion branch that would read the unassigned
weight variable is never reached. -/
theorem c9_counterexample :
    (pySplit "a a").length = 2 ∧
    G9.net.has_node_id .NODE "a" = true ∧
    (constructGraphDataset D9 "edgelist" true none).isOk = true :=
  ⟨by decide, by decide, by decide⟩

/-- Witness for the amended C9 on a network with registered nodes a, b. -/
theorem c9_unbound_weight_amended_witness :
    readEdgelistStep true (netC9, none) "a b" = .error .unboundLocal :=
  c9_unbound_weight_amended.2 netC9 "a b" "a" "b" (by decide) (by decide)
    (by decide) (by decide)

/-- C10: given the internally hardcoded filter, NODE indices are created
only during the document pass (the final NODE dict equals the one
produced by readDocs) and each carries a features attribute, so every
node index in [0, num_nodes) has features and feature_matrix's per-node
attribute lookup never fails. -/
theorem c10_features_total (d : DataDir) (fmt : String) (b : Bool)
    (tok : Option Tokenizer) (g : GraphDataset)
    (h : constructGraphDataset d fmt b tok = .ok g) :
    featuresTotalB g.net = true ∧
    (∃ net1 tok1,
      readDocs (emptyNet, tok.getD emptyEnglishTokenizer) d.docs = .ok (net1, tok1) ∧
      g.net.nodeDict = net1.nodeDict) ∧
    (g.feature_matrix true).isOk = true := by
  obtain ⟨hfb, hdocs, -⟩ := construct_invariants h
  obtain ⟨tr, htr, -⟩ := feature_matrix_spec hfb
  exact ⟨(featuresTotalB_iff g.net).mpr hfb, hdocs, by rw [htr]; rfl⟩

/-- Witness for C10 on a concrete dataset. -/
theorem c10_features_total_witness :
    featuresTotalB G10.net = true ∧ (G10.feature_matrix true).isOk = true := by
  have h := c10_features_total D10 "adjedges" true none G10 (by decide)
  exact ⟨h.1, h.2.2⟩

end TFGAT
